import Mathlib

/-!
Shallow embedding of the calibration data-processing engine
(`src/services/dataProcessor.ts`) of the tank-calibration application.

Numbers are modelled by the rationals `ℚ` (idealising IEEE doubles: no
rounding, no `NaN`/`Infinity` values; the places where JavaScript `NaN`
can appear are modelled with `Option ℚ`).  JavaScript's stable
`Array.prototype.sort` with the comparator `a.height - b.height` is
modelled by Mathlib's stable insertion sort on the reflexive total
preorder on the `height` field.
-/

deriving instance DecidableEq for Except

set_option maxRecDepth 8000

namespace DataProcessor

/-- One row of the calibration chart, mirroring the `ProcessedData`
interface of `types.ts`: the optional fields model the TypeScript
optional members (`undefined` ↦ `none`). -/
structure ProcessedData where
  height : ℚ
  chartVolume : ℚ
  fieldVolume : Option ℚ := none
  deviation : Option ℚ := none
deriving DecidableEq, Repr

/-- Location/value pair used by the statistics, mirroring `DeviationPoint`
of `types.ts`. -/
structure DeviationPoint where
  height : ℚ
  value : ℚ
deriving DecidableEq, Repr

/-- Summary statistics, mirroring `ValidationStats` of `types.ts`. -/
structure ValidationStats where
  totalMeasurements : ℕ
  averageDeviation : ℚ
  maxDeviation : DeviationPoint
  minDeviation : DeviationPoint
deriving DecidableEq, Repr

/-- One before/after delivery comparison, mirroring
`DeliveryValidationData` of `types.ts`. -/
structure DeliveryValidationData where
  heightBefore : ℚ
  heightAfter : ℚ
  reportedDelivery : ℚ
  chartCalculatedDelivery : ℚ
  deviation : ℚ
deriving DecidableEq, Repr

/-- An already-normalized dip reading handed to delivery validation:
`{ height: number; delivery: number }` in the source. -/
structure DeliveryPoint where
  height : ℚ
  delivery : ℚ
deriving DecidableEq, Repr

/-! ### String machinery

The dialect parser works on JavaScript strings.  We model them as
`String` at the interface and as `List Char` internally, with structural
recursions so that every concrete invocation reduces. -/

/-- Both-ends whitespace trim on character lists, modelling
`String.prototype.trim` (for the ASCII whitespace actually occurring in
the supported file formats). -/
def trimChars (cs : List Char) : List Char :=
  ((cs.dropWhile Char.isWhitespace).reverse.dropWhile Char.isWhitespace).reverse

/-- ASCII upper-casing, modelling `String.prototype.toUpperCase` on the
ASCII sentinel line it is applied to. -/
def jsToUpper (cs : List Char) : List Char := cs.map Char.toUpper

/-- Splitting on every character satisfying `p`, modelling
`String.prototype.split` with a single-character separator (each
separator occurrence delimits, empty pieces are kept).  The result is
always non-empty. -/
def splitOnP (p : Char → Bool) : List Char → List (List Char)
  | [] => [[]]
  | c :: rest =>
    let r := splitOnP p rest
    if p c then [] :: r
    else
      match r with
      | h :: t => (c :: h) :: t
      | [] => [[c]]

/-- Split on a literal character, as in `line.split(',')`. -/
def splitOnChar (separator : Char) (cs : List Char) : List (List Char) :=
  splitOnP (fun c => c = separator) cs

/-- Removal of one trailing carriage return. -/
def stripCR (cs : List Char) : List Char :=
  match cs.getLast? with
  | some c => if c = '\r' then cs.dropLast else cs
  | none => cs

/-- Line splitting, modelling `text.split(/\r?\n/)`: split on every
line feed, then drop the carriage return left at the end of a piece by
a CRLF separator. -/
def splitLines (cs : List Char) : List (List Char) :=
  (splitOnChar '\n' cs).map stripCR

/-- Splitting on runs of whitespace, modelling `line.split(/\s+/)`: a
maximal whitespace run is one separator, so interior empty pieces
collapse while an empty piece at either boundary (leading or trailing
whitespace) survives, exactly as the JavaScript regex split behaves. -/
def splitWS (cs : List Char) : List (List Char) :=
  match splitOnP Char.isWhitespace cs with
  | [] => []
  | [x] => [x]
  | h :: t => h :: ((t.dropLast.filter (fun x => !x.isEmpty)) ++ [t.getLastD []])

/-- Decimal digit run to a natural number. -/
def digitsToNat (ds : List Char) : ℕ :=
  ds.foldl (fun n c => 10 * n + (c.toNat - 48)) 0

/-- JavaScript `parseFloat`, restricted to finite decimal results: skip
leading whitespace, an optional sign, then the longest
`digits [. digits] [e/E [sign] digits]` prefix; `none` models the `NaN`
result obtained when no digit is found before the optional dot is
exhausted.  (The non-finite literal `Infinity`, which `parseFloat`
accepts, has no rational value and is outside this model.) -/
def jsParseFloat (cs : List Char) : Option ℚ :=
  let cs1 := cs.dropWhile Char.isWhitespace
  let sign : ℚ := if cs1.headD ' ' = '-' then -1 else 1
  let cs2 := if cs1.headD ' ' = '-' ∨ cs1.headD ' ' = '+' then cs1.tail else cs1
  let intPart := cs2.takeWhile Char.isDigit
  let rest1 := cs2.dropWhile Char.isDigit
  let fracPart := if rest1.headD ' ' = '.' then rest1.tail.takeWhile Char.isDigit else []
  let rest2 := if rest1.headD ' ' = '.' then rest1.tail.dropWhile Char.isDigit else rest1
  if intPart = [] ∧ fracPart = [] then none
  else
    let mantissa : ℚ :=
      (digitsToNat intPart : ℚ) + (digitsToNat fracPart : ℚ) / (10 : ℚ) ^ fracPart.length
    let expScale : ℚ :=
      if rest2.headD ' ' = 'e' ∨ rest2.headD ' ' = 'E' then
        let rest3 := rest2.tail
        let rest4 := if rest3.headD ' ' = '-' ∨ rest3.headD ' ' = '+' then rest3.tail else rest3
        let expDigits := rest4.takeWhile Char.isDigit
        if expDigits = [] then 1
        else if rest3.headD ' ' = '-' then 1 / (10 : ℚ) ^ digitsToNat expDigits
        else (10 : ℚ) ^ digitsToNat expDigits
      else 1
    some (sign * mantissa * expScale)

/-! ### Dialect parser -/

/-- One parsed table cell: `number | string` in the source. -/
inductive Cell where
  | num (q : ℚ)
  | txt (s : String)
deriving DecidableEq, Repr

/-- The parse result `{ headers: string[], data: (string|number)[][] }`. -/
structure ParsedFile where
  headers : List String
  data : List (List Cell)
deriving DecidableEq, Repr

/-- Cell conversion used on every data field: the trimmed field becomes
a number when `parseFloat` accepts it and stays the trimmed text
otherwise (`isNaN(num) ? field.trim() : num`). -/
def toCell (field : List Char) : Cell :=
  match jsParseFloat (trimChars field) with
  | some q => Cell.num q
  | none => Cell.txt (String.mk (trimChars field))

/-- The tagged-table sentinel line. -/
def fusionSentinel : List Char := "[FUSION_ATG_TANK_TABLE]".data

/-- Direct translation of `parseFileContent` (dataProcessor.ts, lines
12-73): trims the text, splits lines, dispatches on the sentinel, else
detects the delimiter from the first line, then treats the first line
as a header row iff one of its fields fails to parse as a number. -/
def parseFileContent (text : String) : Except String ParsedFile :=
  let trimmedText := trimChars text.data
  if trimmedText = [] then .error "File content is empty."
  else
    let lines := splitLines trimmedText
    let firstLine := lines.headD []
    if jsToUpper (trimChars firstLine) = fusionSentinel then
      match lines with
      | _ :: headerLine :: dataLines =>
        if dataLines = [] then
          .error "Fusion ATG file must have a header and at least one data row."
        else
          .ok ⟨(splitWS headerLine).map (fun h => String.mk (trimChars h)),
               dataLines.map (fun line => (splitWS (trimChars line)).map toCell)⟩
      | _ => .error "Fusion ATG file must have a header and at least one data row."
    else
      let delimiter : Char := if ';' ∈ firstLine then ';' else ','
      let firstLineFields := splitOnChar delimiter firstLine
      let firstLineIsHeader := firstLineFields.any (fun f => (jsParseFloat (trimChars f)).isNone)
      if firstLineIsHeader then
        if lines.length < 2 then .error "CSV file must have at least one data row."
        else
          .ok ⟨firstLineFields.map (fun h => String.mk (trimChars h)),
               (lines.drop 1).map (fun line => (splitOnChar delimiter line).map toCell)⟩
      else
        let data := lines.map (fun line => ((splitOnChar delimiter line).take 2).map toCell)
        if data.length = 0 then .error "No data rows found in the file."
        else .ok ⟨["Height", "Volume"], data⟩

/-! ### Header mapper -/

/-- Alternatives of the case-insensitive height pattern
`/height|depth|level|dip/i`. -/
def heightRegex : List String := ["height", "depth", "level", "dip"]

/-- Alternatives of `/volume|capacity|liters|gallons|Ltrs/i`. -/
def volumeRegex : List String := ["volume", "capacity", "liters", "gallons", "Ltrs"]

/-- Alternatives of `/field|actual|measured|site/i`. -/
def fieldVolumeRegex : List String := ["field", "actual", "measured", "site"]

/-- Alternatives of `/delivery|delivered|fuel delivery/i`. -/
def deliveryRegex : List String := ["delivery", "delivered", "fuel delivery"]

/-- Leading-match test: `startsWithSeq p c` holds when `p` is an
initial segment of `c`. -/
def startsWithSeq : List Char → List Char → Bool
  | [], _ => true
  | _ :: _, [] => false
  | p :: ps, c :: cs => p = c && startsWithSeq ps cs

/-- Contiguous-occurrence test of `pat` inside a character list. -/
def containsSeq (pat : List Char) : List Char → Bool
  | [] => pat.isEmpty
  | c :: cs => startsWithSeq pat (c :: cs) || containsSeq pat cs

/-- Case-insensitive alternation test: the regexes above are plain
alternations of literal words, so `regex.test(h)` holds iff some
alternative occurs in `h` ignoring case. -/
def regexTest (pats : List String) (h : String) : Bool :=
  pats.any (fun p => containsSeq (p.data.map Char.toLower) (h.data.map Char.toLower))

/-- Resolved semantic labels of a header row, mirroring the anonymous
return type of `findHeaders`. -/
structure HeaderMapping where
  heightHeader : String
  volumeHeader : Option String
  fieldVolumeHeader : Option String
  deliveryHeader : Option String
deriving DecidableEq, Repr

/-- Direct translation of `findHeaders` (dataProcessor.ts, lines
75-90).  JavaScript truthiness of the found headers coincides with
`Option.isSome` here because a header matching a non-empty pattern is a
non-empty string. -/
def findHeaders (headers : List String) : Option HeaderMapping :=
  let heightHeader := headers.find? (fun h => regexTest heightRegex h)
  let volumeHeader :=
    (headers.find? (fun h => regexTest volumeRegex h && !regexTest fieldVolumeRegex h)).orElse
      (fun _ => headers.find? (fun h => regexTest volumeRegex h))
  let fieldVolumeHeader :=
    headers.find? (fun h => regexTest fieldVolumeRegex h && regexTest volumeRegex h)
  let deliveryHeader := headers.find? (fun h => regexTest deliveryRegex h)
  match heightHeader with
  | none => none
  | some hh =>
    if volumeHeader.isSome || deliveryHeader.isSome then
      some ⟨hh, volumeHeader, fieldVolumeHeader, deliveryHeader⟩
    else none

/-! ### Statistics aggregator -/

/-- One step of the source's `forEach` maximum update
`if (d.deviation > maxDeviation.value) maxDeviation = {...}`.  The
source starts from `{ value: -Infinity }`, which every rational
deviation strictly exceeds; the `none` accumulator models that
below-everything initial state, so the first element always replaces it
and later elements replace only on the strict comparison. -/
def extMaxStep (acc : Option DeviationPoint) (p : DeviationPoint) : Option DeviationPoint :=
  match acc with
  | none => some p
  | some m => if p.value > m.value then some p else some m

/-- One step of the dual minimum update, starting from
`{ value: Infinity }`. -/
def extMinStep (acc : Option DeviationPoint) (p : DeviationPoint) : Option DeviationPoint :=
  match acc with
  | none => some p
  | some m => if p.value < m.value then some p else some m

/-- The source's `forEach` maximum scan as a fold. -/
def foldExtMax (pts : List DeviationPoint) : Option DeviationPoint :=
  pts.foldl extMaxStep none

/-- The source's `forEach` minimum scan as a fold. -/
def foldExtMin (pts : List DeviationPoint) : Option DeviationPoint :=
  pts.foldl extMinStep none

/-- The location/value pairs of the records carrying a deviation, in
input order.  The source's `forEach` body guards on
`d.deviation !== undefined && d.deviation !== null && !isNaN(d.deviation)`
and skips the others, which is a fold over exactly this sequence. -/
def validDeviationPairs (data : List ProcessedData) : List DeviationPoint :=
  data.filterMap (fun d => d.deviation.map (fun v => ⟨d.height, v⟩))

/-- Direct translation of `calculateStats` (dataProcessor.ts, lines
93-118).  `validDeviations` renders `data.map(d => d.deviation).filter(present)`;
over `ℚ` a present deviation is never `NaN`, so the presence filter is
`Option.isSome`. -/
def calculateStats (data : List ProcessedData) : ValidationStats :=
  let validDeviations := (data.map ProcessedData.deviation).reduceOption
  let totalMeasurements := validDeviations.length
  if totalMeasurements = 0 then ⟨0, 0, ⟨0, 0⟩, ⟨0, 0⟩⟩
  else
    let averageDeviation :=
      validDeviations.foldl (fun sum dev => sum + dev) 0 / (totalMeasurements : ℚ)
    ⟨totalMeasurements, averageDeviation,
      (foldExtMax (validDeviationPairs data)).getD ⟨0, 0⟩,
      (foldExtMin (validDeviationPairs data)).getD ⟨0, 0⟩⟩

/-! ### Calibration ingest pipeline -/

/-- JavaScript `Number(row[i])` on an optional table cell, as an
optional rational (`none` models `NaN`): a missing cell is `undefined`
(`Number(undefined)` is `NaN`); a numeric cell is itself; a text cell is
`0` when blank (`Number("") === 0`) and `NaN` otherwise (text cells are
trimmed fields `parseFloat` rejected, so no finite numeric string can
reach that branch). -/
def jsNumberOfCell (c : Option Cell) : Option ℚ :=
  match c with
  | none => none
  | some (Cell.num q) => some q
  | some (Cell.txt s) => if trimChars s.data = [] then some 0 else none

/-- The display-configuration fragment returned by the ingest pipeline
(`initialConfig` of `processAndAnalyzeData`). -/
structure InitialConfig where
  heightHeader : String
  volumeHeader : String
  columnOrder : String
  decimalPlaces : ℕ
deriving DecidableEq, Repr

/-- The ingest pipeline result `{ data, stats, initialConfig }`. -/
structure AnalysisResult where
  data : List ProcessedData
  stats : Option ValidationStats
  initialConfig : InitialConfig
deriving DecidableEq, Repr

/-- Direct translation of `processAndAnalyzeData` (dataProcessor.ts,
lines 130-163).  `List.indexOf` stands for `Array.prototype.indexOf`;
the headers looked up were found in the very list searched, so the
`-1`/`length` not-found conventions never differ here.  A row survives
iff its height and chart-volume cells coerce to numbers
(`map(...).filter(d => d !== null)` is rendered by building optional
rows and keeping the present ones); a `NaN` field volume is dropped to
`none` together with its deviation. -/
def processAndAnalyzeData (fileText : String) : Except String AnalysisResult :=
  match parseFileContent fileText with
  | .error e => .error e
  | .ok pf =>
  match findHeaders pf.headers with
  | none =>
    .error "Could not automatically detect \"Height\" and \"Volume\" columns. Please check the file headers or ensure the format is correct."
  | some m =>
    match m.volumeHeader with
    | none =>
      .error "Could not automatically detect \"Height\" and \"Volume\" columns. Please check the file headers or ensure the format is correct."
    | some volumeHeader =>
      let heightIndex := pf.headers.indexOf m.heightHeader
      let volumeIndex := pf.headers.indexOf volumeHeader
      let data := (pf.data.map (fun row =>
        let height? := jsNumberOfCell (row.get? heightIndex)
        let chartVolume? := jsNumberOfCell (row.get? volumeIndex)
        let fieldVolume? :=
          match m.fieldVolumeHeader with
          | none => none
          | some fh => jsNumberOfCell (row.get? (pf.headers.indexOf fh))
        match height?, chartVolume? with
        | some h, some cv =>
          some (⟨h, cv, fieldVolume?, fieldVolume?.map (fun fv => fv - cv)⟩ : ProcessedData)
        | _, _ => none)).reduceOption
      if data = [] then .error "No valid numeric data found."
      else
        .ok ⟨data,
             if m.fieldVolumeHeader.isSome then some (calculateStats data) else none,
             ⟨m.heightHeader, volumeHeader, "height-volume", 2⟩⟩

/-- Comparison on the `height` field; the key order used by every
`[...].sort((a, b) => a.height - b.height)` in the source. -/
def heightLE (a b : ProcessedData) : Prop := a.height ≤ b.height

instance : DecidableRel heightLE := fun a b =>
  inferInstanceAs (Decidable (a.height ≤ b.height))

instance : IsTotal ProcessedData heightLE :=
  ⟨fun a b => le_total a.height b.height⟩

instance : IsTrans ProcessedData heightLE :=
  ⟨fun _ _ _ hab hbc => le_trans hab hbc⟩

/-- Stable sort of a chart by ascending height, modelling
`[...chartData].sort((a, b) => a.height - b.height)` (stable per the
ECMAScript specification). -/
def sortByHeight (chartData : List ProcessedData) : List ProcessedData :=
  List.insertionSort heightLE chartData

/-- Piecewise-linear lookup of the chart volume at `height` on the
already defensively sorted copy of the chart; together with
`interpolate` below this is the direct translation of `interpolate`
(dataProcessor.ts, lines 166-176).  The JavaScript fallback
`sortedChart[0]?.chartVolume || 0` returns `0` for the empty chart and
the first point's volume otherwise (a volume of `0` is falsy in
JavaScript, but then `|| 0` still yields that same value, so over `ℚ`
the translation below is exact). -/
def interpolateBody (height : ℚ) (sortedChart : List ProcessedData) : ℚ :=
  match sortedChart.find? (fun p => decide (height ≤ p.height)),
        sortedChart.reverse.find? (fun p => decide (p.height ≤ height)) with
  | some upper, some lower =>
    if upper.height = lower.height then upper.chartVolume
    else
      lower.chartVolume +
        (upper.chartVolume - lower.chartVolume) / (upper.height - lower.height) *
          (height - lower.height)
  | _, _ => (sortedChart.head?.map ProcessedData.chartVolume).getD 0

/-- The function `interpolate` itself: sort defensively, then look up. -/
def interpolate (height : ℚ) (chartData : List ProcessedData) : ℚ :=
  interpolateBody height (sortByHeight chartData)

/-- Direct translation of `generateStrappingChartData` (dataProcessor.ts,
lines 178-195): below two points the input is returned unchanged,
otherwise `points` evenly spaced heights from the sorted minimum to the
sorted maximum are interpolated (`for (let i = 0; i < points; i++)` is
the map over `List.range points`). -/
def generateStrappingChartData (chartData : List ProcessedData) (points : ℕ := 300) :
    List ProcessedData :=
  if chartData.length < 2 then chartData
  else
    let sortedChart := sortByHeight chartData
    let minHeight := ((sortedChart.head?.map ProcessedData.height).getD 0)
    let maxHeight := ((sortedChart.getLast?.map ProcessedData.height).getD 0)
    let step := (maxHeight - minHeight) / ((points : ℚ) - 1)
    (List.range points).map (fun (i : ℕ) =>
      let currentHeight := minHeight + (i : ℚ) * step
      ⟨currentHeight, interpolate currentHeight chartData, none, none⟩)

/-! ### Delivery validation -/

/-- The record built for the consecutive pair `(a, b)` of dip readings
by the body of the loop in `calculateDeliveryValidation`. -/
def mkDeliveryRecord (chartData : List ProcessedData) (a b : DeliveryPoint) :
    DeliveryValidationData :=
  let volumeBefore := interpolate a.height chartData
  let volumeAfter := interpolate b.height chartData
  let chartCalculatedDelivery := volumeAfter - volumeBefore
  ⟨a.height, b.height, b.delivery, chartCalculatedDelivery,
    b.delivery - chartCalculatedDelivery⟩

/-- The loop `for (let i = 1; i < deliveryPoints.length; i++)` of
`calculateDeliveryValidation` (dataProcessor.ts, lines 240-260),
structurally recursing over the consecutive pairs in order.  The source
guard is `reportedDelivery === 0 && i > 0`; inside the loop `i ≥ 1`, so
it skips exactly the pairs whose second reading reports a zero
delivery. -/
def deliveryRecords (chartData : List ProcessedData) :
    List DeliveryPoint → List DeliveryValidationData
  | [] => []
  | [_] => []
  | a :: b :: rest =>
    (if b.delivery = 0 then [] else [mkDeliveryRecord chartData a b]) ++
      deliveryRecords chartData (b :: rest)

/-- The result `{ deliveryData, stats }` of delivery validation. -/
structure DeliveryValidationResult where
  deliveryData : List DeliveryValidationData
  stats : ValidationStats
deriving DecidableEq, Repr

/-- Direct translation of `calculateDeliveryValidation`
(dataProcessor.ts, lines 235-279).  The extremum folds run over the
`(heightAfter, deviation)` pairs of every emitted record; the source's
`{ height: -1, value: ±Infinity }` initial accumulators are the `none`
state of the fold (the `-1` placeholder height resurfaces only in the
unreachable `getD` default, since the folds run only when at least one
record exists). -/
def calculateDeliveryValidation (deliveryPoints : List DeliveryPoint)
    (chartData : List ProcessedData) : DeliveryValidationResult :=
  let deliveryData := deliveryRecords chartData deliveryPoints
  let totalDeliveries := deliveryData.length
  if totalDeliveries = 0 then ⟨[], ⟨0, 0, ⟨0, 0⟩, ⟨0, 0⟩⟩⟩
  else
    let deviations := deliveryData.map DeliveryValidationData.deviation
    let averageDeviation := deviations.foldl (fun a b => a + b) 0 / (totalDeliveries : ℚ)
    let pairs := deliveryData.map (fun d => (⟨d.heightAfter, d.deviation⟩ : DeviationPoint))
    ⟨deliveryData,
      ⟨totalDeliveries, averageDeviation,
        (foldExtMax pairs).getD ⟨-1, 0⟩, (foldExtMin pairs).getD ⟨-1, 0⟩⟩⟩

/-- Projection and numeric filtering of the parsed rows into dip
readings: `rawData.map(row => ({height: Number(row[heightIndex]),
delivery: Number(row[deliveryIndex])})).filter(p => !isNaN(p.height) &&
!isNaN(p.delivery))`, rendered as a `filterMap`. -/
def projectDeliveryPoints (pf : ParsedFile) (heightIndex deliveryIndex : ℕ) :
    List DeliveryPoint :=
  pf.data.filterMap (fun row =>
    match jsNumberOfCell (row.get? heightIndex), jsNumberOfCell (row.get? deliveryIndex) with
    | some h, some d => some (⟨h, d⟩ : DeliveryPoint)
    | _, _ => none)

/-- Direct translation of `processDeliveryValidation` (dataProcessor.ts,
lines 281-305): parse, map headers, project and numerically filter the
`(height, delivery)` rows, and refuse fewer than two surviving
readings. -/
def processDeliveryValidation (validationFileText : String)
    (chartData : List ProcessedData) : Except String DeliveryValidationResult :=
  match parseFileContent validationFileText with
  | .error e => .error e
  | .ok pf =>
  match findHeaders pf.headers with
  | none => .error "Delivery validation file must have \"Height\" and \"Fuel Delivery\" columns."
  | some m =>
    match m.deliveryHeader with
    | none => .error "Delivery validation file must have \"Height\" and \"Fuel Delivery\" columns."
    | some dh =>
      let deliveryPoints :=
        projectDeliveryPoints pf (pf.headers.indexOf m.heightHeader) (pf.headers.indexOf dh)
      if deliveryPoints.length < 2 then
        .error "Delivery validation requires at least two data points (e.g., before and after delivery)."
      else .ok (calculateDeliveryValidation deliveryPoints chartData)

/-- Direct translation of `processPointValidation` (dataProcessor.ts,
lines 197-233). -/
def processPointValidation (validationFileText : String)
    (chartData : List ProcessedData) :
    Except String (List ProcessedData × ValidationStats) :=
  match parseFileContent validationFileText with
  | .error e => .error e
  | .ok pf =>
  match findHeaders pf.headers with
  | none => .error "Validation file must have \"Height\" and \"Volume\" columns."
  | some m =>
    match m.volumeHeader with
    | none => .error "Validation file must have \"Height\" and \"Volume\" columns."
    | some vh =>
      let heightIndex := pf.headers.indexOf m.heightHeader
      let volumeIndex := pf.headers.indexOf vh
      let validationPoints := pf.data.filterMap (fun row =>
        match jsNumberOfCell (row.get? heightIndex), jsNumberOfCell (row.get? volumeIndex) with
        | some h, some fv => some (h, fv)
        | _, _ => none)
      if validationPoints = [] then
        .error "No valid validation data points found in the file."
      else
        let combinedData := validationPoints.map (fun p =>
          let chartVolume := interpolate p.1 chartData
          (⟨p.1, chartVolume, some p.2, some (p.2 - chartVolume)⟩ : ProcessedData))
        .ok (combinedData, calculateStats combinedData)

/-- The tagged union returned by the validation router
`processValidationData`. -/
inductive ValidationResult where
  | point (combinedData : List ProcessedData) (stats : ValidationStats)
  | delivery (deliveryData : List DeliveryValidationData) (stats : ValidationStats)
deriving DecidableEq, Repr

/-- Direct translation of `processValidationData` (dataProcessor.ts,
lines 307-333): a delivery header routes to delivery validation, else a
volume header routes to point validation, else the call fails. -/
def processValidationData (validationFileText : String)
    (chartData : List ProcessedData) : Except String ValidationResult :=
  match parseFileContent validationFileText with
  | .error e => .error e
  | .ok pf =>
  match findHeaders pf.headers with
  | some m =>
    if m.deliveryHeader.isSome then
      (processDeliveryValidation validationFileText chartData).map
        (fun r => .delivery r.deliveryData r.stats)
    else if m.volumeHeader.isSome then
      (processPointValidation validationFileText chartData).map
        (fun r => .point r.1 r.2)
    else
      .error "Could not determine validation file type. Please ensure headers like 'Volume' or 'Fuel Delivery' are present."
  | none =>
    .error "Could not determine validation file type. Please ensure headers like 'Volume' or 'Fuel Delivery' are present."

/-! ### Proof infrastructure for the interpolator -/

/-- Volume comparison along the chart. -/
def volLE (p q : ProcessedData) : Prop := p.chartVolume ≤ q.chartVolume

@[simp] lemma heightLE_iff {p q : ProcessedData} : heightLE p q ↔ p.height ≤ q.height :=
  Iff.rfl

@[simp] lemma volLE_iff {p q : ProcessedData} : volLE p q ↔ p.chartVolume ≤ q.chartVolume :=
  Iff.rfl

instance : DecidableRel volLE := fun a b =>
  inferInstanceAs (Decidable (a.chartVolume ≤ b.chartVolume))

lemma sortByHeight_sorted (l : List ProcessedData) :
    List.Sorted heightLE (sortByHeight l) :=
  List.sorted_insertionSort heightLE l

lemma sortByHeight_of_sorted {l : List ProcessedData} (h : List.Sorted heightLE l) :
    sortByHeight l = l :=
  h.insertionSort_eq

@[simp] lemma mem_sortByHeight {l : List ProcessedData} {x : ProcessedData} :
    x ∈ sortByHeight l ↔ x ∈ l :=
  List.mem_insertionSort heightLE

lemma interpolate_of_sorted {s : List ProcessedData} (hs : List.Sorted heightLE s) (h : ℚ) :
    interpolate h s = interpolateBody h s := by
  rw [interpolate, sortByHeight_of_sorted hs]

lemma interpolate_sortByHeight (h : ℚ) (l : List ProcessedData) :
    interpolate h (sortByHeight l) = interpolate h l := by
  rw [interpolate, interpolate, sortByHeight_of_sorted (sortByHeight_sorted l)]

/-- Structural evaluator of the piecewise-linear lookup on an already
sorted chart; `interpolate_eq_pl` below proves it agrees with
`interpolate` whenever the target does not exceed the maximal height. -/
def pl (h : ℚ) : List ProcessedData → ℚ
  | [] => 0
  | [p] => p.chartVolume
  | p :: q :: rest =>
    if h ≤ p.height then p.chartVolume
    else if q.height ≤ h then pl h (q :: rest)
    else
      p.chartVolume +
        (q.chartVolume - p.chartVolume) / (q.height - p.height) * (h - p.height)

lemma interpolate_eq_pl :
    ∀ (s : List ProcessedData), List.Sorted heightLE s →
      ∀ h : ℚ, (∃ x ∈ s, h ≤ x.height) → interpolate h s = pl h s
  | [], _, h, hub => by simp at hub
  | [p], hs, h, hub => by
    have hp : h ≤ p.height := by simpa using hub
    rw [interpolate_of_sorted hs]
    have hu : List.find? (fun x => decide (h ≤ x.height)) [p] = some p :=
      List.find?_cons_of_pos _ (by simpa using hp)
    rcases eq_or_lt_of_le hp with heq | hlt
    · have hlo : [p].reverse.find? (fun x => decide (x.height ≤ h)) = some p := by
        rw [List.reverse_singleton]
        exact List.find?_cons_of_pos _ (by simp [heq])
      simp only [interpolateBody, hu, hlo]
      simp [pl]
    · have hlo : [p].reverse.find? (fun x => decide (x.height ≤ h)) = none := by
        rw [List.reverse_singleton, List.find?_eq_none]
        intro x hx
        simp only [List.mem_singleton] at hx
        subst hx
        simpa using not_le.mpr hlt
      simp only [interpolateBody, hu, hlo]
      simp [pl]
  | p :: q :: rest, hs, h, hub => by
    have hsort_t : List.Sorted heightLE (q :: rest) := hs.of_cons
    rw [interpolate_of_sorted hs]
    by_cases hp : h ≤ p.height
    · have hu : List.find? (fun x => decide (h ≤ x.height)) (p :: q :: rest) = some p :=
        List.find?_cons_of_pos _ (by simpa using hp)
      have hplv : pl h (p :: q :: rest) = p.chartVolume := by
        simp only [pl, if_pos hp]
      rcases eq_or_lt_of_le hp with heq | hlt
      · have hsome :
            (((p :: q :: rest).reverse).find? (fun x => decide (x.height ≤ h))).isSome := by
          rw [List.find?_isSome]
          exact ⟨p, by simp, by simp [heq]⟩
        obtain ⟨lo, hlo⟩ := Option.isSome_iff_exists.mp hsome
        have hlo_mem : lo ∈ p :: q :: rest :=
          List.mem_reverse.mp (List.mem_of_find?_eq_some hlo)
        have hlo_le : lo.height ≤ h := by simpa using List.find?_some hlo
        have hlo_ge : p.height ≤ lo.height := by
          rcases List.mem_cons.mp hlo_mem with rfl | hm
          · exact le_refl _
          · simpa using List.rel_of_sorted_cons hs lo hm
        have hlo_eq : p.height = lo.height := le_antisymm hlo_ge (heq ▸ hlo_le)
        simp only [interpolateBody, hu, hlo, if_pos hlo_eq]
        exact hplv.symm
      · have hlo : ((p :: q :: rest).reverse).find? (fun x => decide (x.height ≤ h)) = none := by
          rw [List.find?_eq_none]
          intro x hx
          have hx' : x ∈ p :: q :: rest := List.mem_reverse.mp hx
          have hge : p.height ≤ x.height := by
            rcases List.mem_cons.mp hx' with rfl | hm
            · exact le_refl _
            · simpa using List.rel_of_sorted_cons hs x hm
          simpa using not_le.mpr (lt_of_lt_of_le hlt hge)
        simp only [interpolateBody, hu, hlo]
        simpa using hplv.symm
    · push_neg at hp
      by_cases hq : q.height ≤ h
      · have hub' : ∃ x ∈ q :: rest, h ≤ x.height := by
          obtain ⟨x, hx, hxh⟩ := hub
          rcases List.mem_cons.mp hx with rfl | hm
          · exact absurd hxh (not_le.mpr hp)
          · exact ⟨x, hm, hxh⟩
        have ih := interpolate_eq_pl (q :: rest) hsort_t h hub'
        rw [interpolate_of_sorted hsort_t] at ih
        have hu_eq : List.find? (fun x => decide (h ≤ x.height)) (p :: q :: rest)
            = List.find? (fun x => decide (h ≤ x.height)) (q :: rest) :=
          List.find?_cons_of_neg _ (by simpa using not_le.mpr hp)
        have hup_t :
            ((q :: rest).find? (fun x => decide (h ≤ x.height))).isSome := by
          rw [List.find?_isSome]
          obtain ⟨x, hm, hxh⟩ := hub'
          exact ⟨x, hm, by simpa using hxh⟩
        obtain ⟨u, hu⟩ := Option.isSome_iff_exists.mp hup_t
        have hlow_t :
            (((q :: rest).reverse).find? (fun x => decide (x.height ≤ h))).isSome := by
          rw [List.find?_isSome]
          exact ⟨q, by simp, by simpa using hq⟩
        obtain ⟨lo, hlo⟩ := Option.isSome_iff_exists.mp hlow_t
        have hlow_eq :
            ((p :: q :: rest).reverse).find? (fun x => decide (x.height ≤ h)) = some lo := by
          have hr : (p :: q :: rest).reverse = (q :: rest).reverse ++ [p] := by simp
          rw [hr, List.find?_append, hlo]
          rfl
        have hbody : interpolateBody h (p :: q :: rest) = interpolateBody h (q :: rest) := by
          simp only [interpolateBody, hu_eq, hlow_eq, hu, hlo]
        have hplr : pl h (p :: q :: rest) = pl h (q :: rest) := by
          simp only [pl, if_neg (not_le.mpr hp), if_pos hq]
        rw [hbody, ih, hplr]
      · push_neg at hq
        have hu : List.find? (fun x => decide (h ≤ x.height)) (p :: q :: rest) = some q := by
          rw [List.find?_cons_of_neg _ (by simpa using not_le.mpr hp)]
          exact List.find?_cons_of_pos _ (by simpa using le_of_lt hq)
        have hlo : ((p :: q :: rest).reverse).find? (fun x => decide (x.height ≤ h))
            = some p := by
          have hr : (p :: q :: rest).reverse = (rest.reverse ++ [q]) ++ [p] := by simp
          rw [hr, List.find?_append]
          have hnone : (rest.reverse ++ [q]).find? (fun x => decide (x.height ≤ h)) = none := by
            rw [List.find?_eq_none]
            intro x hx
            have hx' : x ∈ q :: rest := by
              rcases List.mem_append.mp hx with hm | hm
              · exact List.mem_cons_of_mem q (by simpa using hm)
              · simp only [List.mem_singleton] at hm
                simp [hm]
            have hxq : q.height ≤ x.height := by
              rcases List.mem_cons.mp hx' with rfl | hm
              · exact le_refl _
              · simpa using List.rel_of_sorted_cons hsort_t x hm
            simpa using not_le.mpr (lt_of_lt_of_le hq hxq)
          rw [hnone]
          show List.find? (fun x => decide (x.height ≤ h)) [p] = some p
          exact List.find?_cons_of_pos _ (by simpa using le_of_lt hp)
        have hne : q.height ≠ p.height := ne_of_gt (lt_trans hp hq)
        simp only [interpolateBody, hu, hlo, if_neg hne, pl,
          if_neg (not_le.mpr hp), if_neg (not_le.mpr hq)]

lemma slope_nonneg {pv qv ph qh : ℚ} (hph : ph < qh) (hv : pv ≤ qv) :
    0 ≤ (qv - pv) / (qh - ph) :=
  div_nonneg (by linarith) (by linarith)

lemma left_le_lin {pv qv ph qh h : ℚ} (hph : ph < qh) (hv : pv ≤ qv) (hh : ph ≤ h) :
    pv ≤ pv + (qv - pv) / (qh - ph) * (h - ph) :=
  le_add_of_nonneg_right (mul_nonneg (slope_nonneg hph hv) (by linarith))

lemma lin_mono {pv qv ph qh h1 h2 : ℚ} (hph : ph < qh) (hv : pv ≤ qv) (h12 : h1 ≤ h2) :
    pv + (qv - pv) / (qh - ph) * (h1 - ph) ≤ pv + (qv - pv) / (qh - ph) * (h2 - ph) := by
  have hs := slope_nonneg hph hv
  have hm : (qv - pv) / (qh - ph) * (h1 - ph) ≤ (qv - pv) / (qh - ph) * (h2 - ph) :=
    mul_le_mul_of_nonneg_left (by linarith) hs
  linarith

lemma lin_le_right {pv qv ph qh h : ℚ} (hph : ph < qh) (hv : pv ≤ qv) (hh : h ≤ qh) :
    pv + (qv - pv) / (qh - ph) * (h - ph) ≤ qv := by
  have hle := @lin_mono pv qv ph qh h qh hph hv hh
  have hq : pv + (qv - pv) / (qh - ph) * (qh - ph) = qv := by
    rw [div_mul_cancel₀ _ (ne_of_gt (by linarith : (0:ℚ) < qh - ph))]
    ring
  linarith

/-- On a sorted chart with nondecreasing volumes, every value of the
piecewise-linear evaluator is at least the first volume. -/
lemma head_vol_le_pl :
    ∀ (p : ProcessedData) (t : List ProcessedData), List.Sorted heightLE (p :: t) →
      List.Pairwise volLE (p :: t) → ∀ h : ℚ, p.chartVolume ≤ pl h (p :: t)
  | _, [], _, _, _ => by simp [pl]
  | p, q :: rest, hs, hv, h => by
    by_cases h1 : h ≤ p.height
    · simp [pl, h1]
    · by_cases h2 : q.height ≤ h
      · have hpq : p.chartVolume ≤ q.chartVolume := by
          simpa using (List.pairwise_cons.mp hv).1 q (by simp)
        have ih := head_vol_le_pl q rest hs.of_cons hv.of_cons h
        have hplr : pl h (p :: q :: rest) = pl h (q :: rest) := by
          simp only [pl, if_neg h1, if_pos h2]
        rw [hplr]
        exact le_trans hpq ih
      · push_neg at h1 h2
        have hpq : p.height < q.height := lt_trans h1 h2
        have hvle : p.chartVolume ≤ q.chartVolume := by
          simpa using (List.pairwise_cons.mp hv).1 q (by simp)
        have hbranch : pl h (p :: q :: rest) =
            p.chartVolume +
              (q.chartVolume - p.chartVolume) / (q.height - p.height) * (h - p.height) := by
          simp only [pl, if_neg (not_le.mpr h1), if_neg (not_le.mpr h2)]
        rw [hbranch]
        exact left_le_lin hpq hvle (le_of_lt h1)

/-- Monotonicity of the piecewise-linear evaluator on a sorted chart
with nondecreasing volumes. -/
lemma pl_mono :
    ∀ (s : List ProcessedData), List.Sorted heightLE s → List.Pairwise volLE s →
      ∀ h1 h2 : ℚ, h1 ≤ h2 → pl h1 s ≤ pl h2 s
  | [], _, _, _, _, _ => le_refl _
  | [_], _, _, _, _, _ => le_refl _
  | p :: q :: rest, hs, hv, h1, h2, h12 => by
    by_cases c1 : h2 ≤ p.height
    · have c0 : h1 ≤ p.height := le_trans h12 c1
      simp only [pl, if_pos c0, if_pos c1]
      exact le_refl _
    · by_cases c2 : h1 ≤ p.height
      · have hl : pl h1 (p :: q :: rest) = p.chartVolume := by
          simp only [pl, if_pos c2]
        rw [hl]
        exact head_vol_le_pl p (q :: rest) hs hv h2
      · push_neg at c1 c2
        by_cases c3 : q.height ≤ h1
        · have c4 : q.height ≤ h2 := le_trans c3 h12
          have e1 : pl h1 (p :: q :: rest) = pl h1 (q :: rest) := by
            simp only [pl, if_neg (not_le.mpr c2), if_pos c3]
          have e2 : pl h2 (p :: q :: rest) = pl h2 (q :: rest) := by
            simp only [pl, if_neg (not_le.mpr c1), if_pos c4]
          rw [e1, e2]
          exact pl_mono (q :: rest) hs.of_cons hv.of_cons h1 h2 h12
        · push_neg at c3
          have hpq : p.height < q.height := lt_trans c2 c3
          have hvle : p.chartVolume ≤ q.chartVolume := by
            simpa using (List.pairwise_cons.mp hv).1 q (by simp)
          have e1 : pl h1 (p :: q :: rest) =
              p.chartVolume +
                (q.chartVolume - p.chartVolume) / (q.height - p.height) * (h1 - p.height) := by
            simp only [pl, if_neg (not_le.mpr c2), if_neg (not_le.mpr c3)]
          by_cases c4 : q.height ≤ h2
          · have e2 : pl h2 (p :: q :: rest) = pl h2 (q :: rest) := by
              simp only [pl, if_neg (not_le.mpr c1), if_pos c4]
            rw [e1, e2]
            exact le_trans (lin_le_right hpq hvle (le_of_lt c3))
              (head_vol_le_pl q rest hs.of_cons hv.of_cons h2)
          · push_neg at c4
            have e2 : pl h2 (p :: q :: rest) =
                p.chartVolume +
                  (q.chartVolume - p.chartVolume) / (q.height - p.height) * (h2 - p.height) := by
              simp only [pl, if_neg (not_le.mpr c1), if_neg (not_le.mpr c4)]
            rw [e1, e2]
            exact lin_mono hpq hvle h12

/-- Exactness of the evaluator at a chart point whose height carries a
single volume. -/
lemma pl_knot :
    ∀ (s : List ProcessedData), List.Sorted heightLE s → ∀ p : ProcessedData, p ∈ s →
      (∀ q ∈ s, q.height = p.height → q.chartVolume = p.chartVolume) →
      pl p.height s = p.chartVolume
  | [], _, p, hp, _ => absurd hp (List.not_mem_nil p)
  | [x], _, p, hp, _ => by
    simp only [List.mem_singleton] at hp
    subst hp
    simp [pl]
  | x :: y :: rest, hs, p, hp, hdup => by
    rcases List.mem_cons.mp hp with rfl | hp'
    · simp [pl]
    · have hxp : x.height ≤ p.height := by
        simpa using List.rel_of_sorted_cons hs p hp'
      rcases eq_or_lt_of_le hxp with heq | hlt
      · have hbranch : pl p.height (x :: y :: rest) = x.chartVolume := by
          simp only [pl, if_pos (le_of_eq heq.symm)]
        rw [hbranch]
        exact hdup x (by simp) heq
      · have hyp : y.height ≤ p.height := by
          rcases List.mem_cons.mp hp' with rfl | hp''
          · exact le_refl _
          · simpa using List.rel_of_sorted_cons hs.of_cons p hp''
        have hbranch : pl p.height (x :: y :: rest) = pl p.height (y :: rest) := by
          simp only [pl, if_neg (not_le.mpr hlt), if_pos hyp]
        rw [hbranch]
        exact pl_knot (y :: rest) hs.of_cons p hp'
          (fun q hq hh => hdup q (List.mem_cons_of_mem x hq) hh)

/-- Volume negation, used to transport nondecreasing-volume facts to
nonincreasing ones. -/
def negVol (p : ProcessedData) : ProcessedData :=
  ⟨p.height, -p.chartVolume, p.fieldVolume, p.deviation⟩

@[simp] lemma negVol_height (p : ProcessedData) : (negVol p).height = p.height := rfl

@[simp] lemma negVol_chartVolume (p : ProcessedData) :
    (negVol p).chartVolume = -p.chartVolume := rfl

lemma pl_negVol (h : ℚ) : ∀ s : List ProcessedData, pl h (s.map negVol) = - pl h s
  | [] => by simp [pl]
  | [p] => by simp [pl]
  | p :: q :: rest => by
    have ih := pl_negVol h (q :: rest)
    simp only [List.map_cons] at ih ⊢
    by_cases c1 : h ≤ p.height
    · simp [pl, c1]
    · by_cases c2 : q.height ≤ h
      · simp only [pl, negVol_height, if_neg c1, if_pos c2]
        exact ih
      · simp only [pl, negVol_height, negVol_chartVolume, if_neg c1, if_neg c2]
        ring

lemma sorted_negVol {s : List ProcessedData} (hs : List.Sorted heightLE s) :
    List.Sorted heightLE (s.map negVol) := by
  rw [List.Sorted, List.pairwise_map]
  exact hs.imp (fun h => h)

lemma pairwise_volLE_negVol {s : List ProcessedData}
    (hv : List.Pairwise (fun p q => q.chartVolume ≤ p.chartVolume) s) :
    List.Pairwise volLE (s.map negVol) := by
  rw [List.pairwise_map]
  exact hv.imp (fun h => by simpa [volLE] using neg_le_neg h)

/-! ### Claim theorems -/

/-- C1: for every non-empty calibration curve and every target height
strictly below every point height or strictly above every point height
(outside the curve's height range on either side), `interpolate`
returns the chart volume of the sorted curve's first point. -/
theorem interpolate_out_of_range_first_point (curve : List ProcessedData) (h : ℚ)
    (hne : curve ≠ [])
    (hout : (∀ p ∈ curve, h < p.height) ∨ (∀ p ∈ curve, p.height < h)) :
    interpolate h curve = ((sortByHeight curve).headD ⟨0, 0, none, none⟩).chartVolume := by
  have hsne : sortByHeight curve ≠ [] := by
    intro hnil
    apply hne
    have hl := congrArg List.length hnil
    simp only [sortByHeight, List.length_insertionSort, List.length_nil] at hl
    exact List.eq_nil_of_length_eq_zero hl
  obtain ⟨hd, tl, hcons⟩ := List.exists_cons_of_ne_nil hsne
  rw [interpolate]
  have hbody : interpolateBody h (sortByHeight curve)
      = ((sortByHeight curve).head?.map ProcessedData.chartVolume).getD 0 := by
    rcases hout with hbelow | habove
    · have hlow : ((sortByHeight curve).reverse).find? (fun x => decide (x.height ≤ h)) = none := by
        rw [List.find?_eq_none]
        intro x hx
        have hx' : x ∈ curve := mem_sortByHeight.mp (List.mem_reverse.mp hx)
        simpa using not_le.mpr (hbelow x hx')
      rcases hfu : (sortByHeight curve).find? (fun x => decide (h ≤ x.height)) with _ | u <;>
        simp only [interpolateBody, hfu, hlow]
    · have hup : (sortByHeight curve).find? (fun x => decide (h ≤ x.height)) = none := by
        rw [List.find?_eq_none]
        intro x hx
        have hx' : x ∈ curve := mem_sortByHeight.mp hx
        simpa using not_le.mpr (habove x hx')
      rcases hfl : ((sortByHeight curve).reverse).find? (fun x => decide (x.height ≤ h)) with _ | lo <;>
        simp only [interpolateBody, hup, hfl]
  rw [hbody, hcons]
  simp

/-- Witness of C1 at the curve `[(1, 7), (2, 9)]` and the target `0`
below the range. -/
theorem interpolate_out_of_range_first_point_witness :
    ([⟨1, 7, none, none⟩, ⟨2, 9, none, none⟩] : List ProcessedData) ≠ []
    ∧ (∀ p ∈ ([⟨1, 7, none, none⟩, ⟨2, 9, none, none⟩] : List ProcessedData), (0:ℚ) < p.height)
    ∧ interpolate 0 [⟨1, 7, none, none⟩, ⟨2, 9, none, none⟩] = 7 :=
  ⟨by with_unfolding_all decide, by with_unfolding_all decide, by
    rw [interpolate_out_of_range_first_point _ 0 (by with_unfolding_all decide)
      (Or.inl (by with_unfolding_all decide))]
    with_unfolding_all decide⟩

/-- C3 counterexample: on the sorted curve `[(0, 0), (1, 10)]` with
nondecreasing volumes, `interpolate` evaluates to `0, 10, 0` at the
heights `0, 1, 2`, so the map is monotone in neither direction over all
real heights (above the range it falls back to the first volume). -/
theorem interpolate_not_monotone_above_range :
    List.Sorted heightLE ([⟨0, 0, none, none⟩, ⟨1, 10, none, none⟩] : List ProcessedData)
    ∧ List.Pairwise volLE ([⟨0, 0, none, none⟩, ⟨1, 10, none, none⟩] : List ProcessedData)
    ∧ 2 ≤ ([⟨0, 0, none, none⟩, ⟨1, 10, none, none⟩] : List ProcessedData).length
    ∧ ¬ Monotone (fun h : ℚ => interpolate h [⟨0, 0, none, none⟩, ⟨1, 10, none, none⟩])
    ∧ ¬ Antitone (fun h : ℚ => interpolate h [⟨0, 0, none, none⟩, ⟨1, 10, none, none⟩]) := by
  have h0 : interpolate 0 [⟨0, 0, none, none⟩, ⟨1, 10, none, none⟩] = 0 := by
    with_unfolding_all decide
  have h1 : interpolate 1 [⟨0, 0, none, none⟩, ⟨1, 10, none, none⟩] = 10 := by
    with_unfolding_all decide
  have h2 : interpolate 2 [⟨0, 0, none, none⟩, ⟨1, 10, none, none⟩] = 0 := by
    with_unfolding_all decide
  refine ⟨by with_unfolding_all decide, by with_unfolding_all decide, by decide, ?_, ?_⟩
  · intro hmono
    have hle := hmono (by norm_num : (1:ℚ) ≤ 2)
    simp only [h1, h2] at hle
    norm_num at hle
  · intro hanti
    have hle := hanti (by norm_num : (0:ℚ) ≤ 1)
    simp only [h0, h1] at hle
    norm_num at hle

/-- C3 (amended): for every curve with at least 2 points sorted
ascending by height, the map `h ↦ interpolate h curve` is monotonic over
the heights that do not exceed the curve's maximum height: nondecreasing
volumes along the curve give a nondecreasing map there and nonincreasing
volumes a nonincreasing one.  (Beyond the maximum height the value jumps
back to the first point's volume, which the counterexample shows breaks
monotonicity over all of `ℚ`.) -/
theorem interpolate_monotone_upto_max (curve : List ProcessedData)
    (hs : List.Sorted heightLE curve) (hlen : 2 ≤ curve.length)
    (h1 h2 : ℚ) (h12 : h1 ≤ h2)
    (hmax : h2 ≤ ((curve.getLast?.map ProcessedData.height).getD 0)) :
    (List.Pairwise (fun p q => p.chartVolume ≤ q.chartVolume) curve →
      interpolate h1 curve ≤ interpolate h2 curve)
    ∧ (List.Pairwise (fun p q => q.chartVolume ≤ p.chartVolume) curve →
      interpolate h2 curve ≤ interpolate h1 curve) := by
  have hne : curve ≠ [] := by
    intro hnil
    rw [hnil] at hlen
    simp at hlen
  have hlast_mem : curve.getLast hne ∈ curve := List.getLast_mem hne
  have hmax' : h2 ≤ (curve.getLast hne).height := by
    rw [List.getLast?_eq_getLast curve hne] at hmax
    simpa using hmax
  have hub2 : ∃ x ∈ curve, h2 ≤ x.height := ⟨curve.getLast hne, hlast_mem, hmax'⟩
  have hub1 : ∃ x ∈ curve, h1 ≤ x.height :=
    ⟨curve.getLast hne, hlast_mem, le_trans h12 hmax'⟩
  have e1 := interpolate_eq_pl curve hs h1 hub1
  have e2 := interpolate_eq_pl curve hs h2 hub2
  constructor
  · intro hv
    rw [e1, e2]
    exact pl_mono curve hs (hv.imp (fun h => h)) h1 h2 h12
  · intro hv
    rw [e1, e2]
    have hneg := pl_mono (curve.map negVol) (sorted_negVol hs)
      (pairwise_volLE_negVol hv) h1 h2 h12
    rw [pl_negVol, pl_negVol] at hneg
    linarith

/-- Witness of the amended C3 on the curve `[(0, 0), (1, 10)]` with the
heights `0 ≤ 1` inside the range. -/
theorem interpolate_monotone_upto_max_witness :
    interpolate (0:ℚ) [⟨0, 0, none, none⟩, ⟨1, 10, none, none⟩]
      ≤ interpolate 1 [⟨0, 0, none, none⟩, ⟨1, 10, none, none⟩] :=
  (interpolate_monotone_upto_max [⟨0, 0, none, none⟩, ⟨1, 10, none, none⟩]
      (by with_unfolding_all decide) (by decide) 0 1 (by norm_num)
      (by with_unfolding_all decide)).1
    (by with_unfolding_all decide)

/-- C4 counterexample: the curve `[(1, 100), (1, 200)]` contains the
point `(1, 200)`, yet interpolating at its height returns `100`, the
first duplicate's volume — interpolation is not exact at every knot of a
curve with duplicate heights. -/
theorem interpolate_duplicate_knot_mismatch :
    (⟨1, 200, none, none⟩ : ProcessedData) ∈
        ([⟨1, 100, none, none⟩, ⟨1, 200, none, none⟩] : List ProcessedData)
    ∧ interpolate (⟨1, 200, none, none⟩ : ProcessedData).height
        [⟨1, 100, none, none⟩, ⟨1, 200, none, none⟩]
      ≠ (⟨1, 200, none, none⟩ : ProcessedData).chartVolume := by
  constructor
  · with_unfolding_all decide
  · with_unfolding_all decide

/-- C4 (amended): interpolation is exact at every knot whose height
carries a single chart volume in the curve: for every point `p` of the
curve such that all points sharing `p`'s height share its chart volume
(in particular at all points of a duplicate-free curve),
`interpolate(p.height, curve) = p.chartVolume` exactly. -/
theorem interpolate_exact_at_knots (curve : List ProcessedData) (p : ProcessedData)
    (hp : p ∈ curve)
    (hdup : ∀ q ∈ curve, q.height = p.height → q.chartVolume = p.chartVolume) :
    interpolate p.height curve = p.chartVolume := by
  have hs := sortByHeight_sorted curve
  have hp' : p ∈ sortByHeight curve := mem_sortByHeight.mpr hp
  have e := interpolate_eq_pl (sortByHeight curve) hs p.height ⟨p, hp', le_refl _⟩
  rw [interpolate_sortByHeight] at e
  rw [e]
  exact pl_knot (sortByHeight curve) hs p hp'
    (fun q hq hh => hdup q (mem_sortByHeight.mp hq) hh)

/-- Witness of the amended C4 at the knot `(100, 1000)` of the curve
`[(0, 0), (100, 1000)]`. -/
theorem interpolate_exact_at_knots_witness :
    interpolate (100:ℚ) [⟨0, 0, none, none⟩, ⟨100, 1000, none, none⟩] = 1000 := by
  have he := interpolate_exact_at_knots [⟨0, 0, none, none⟩, ⟨100, 1000, none, none⟩]
    ⟨100, 1000, none, none⟩ (by with_unfolding_all decide) (by with_unfolding_all decide)
  simpa using he

/-! ### Delivery-validation helper lemmas -/

/-- The loop of `calculateDeliveryValidation` emits one record per
consecutive pair whose second reading has a nonzero delivery, in
order. -/
lemma deliveryRecords_eq_zipFilter (chart : List ProcessedData) :
    ∀ pts : List DeliveryPoint,
      deliveryRecords chart pts =
        ((pts.zip (pts.drop 1)).filter (fun ab => decide (ab.2.delivery ≠ 0))).map
          (fun ab => mkDeliveryRecord chart ab.1 ab.2)
  | [] => rfl
  | [_] => rfl
  | a :: b :: rest => by
    have ih := deliveryRecords_eq_zipFilter chart (b :: rest)
    by_cases hb : b.delivery = 0 <;>
      simp [deliveryRecords, hb, ih, List.filter_cons]

lemma calculateDeliveryValidation_deliveryData (pts : List DeliveryPoint)
    (chart : List ProcessedData) :
    (calculateDeliveryValidation pts chart).deliveryData = deliveryRecords chart pts := by
  simp only [calculateDeliveryValidation]
  split
  · next h =>
      rw [List.length_eq_zero] at h
      simp [h]
  · rfl

/-- C5: in delivery validation over an ordered sequence of dip
readings, every consecutive pair whose second reading reports a zero
delivery produces no record, and every other consecutive pair produces
exactly one record — `heightBefore` from the earlier reading,
`heightAfter` and `reportedDelivery` from the later — in sequence
order; on the readings `[(100,0),(200,5000),(400,7300)]` this yields
exactly the two records `(100,200,5000)` and `(200,400,7300)`. -/
theorem calculateDeliveryValidation_pairs (pts : List DeliveryPoint)
    (chart : List ProcessedData) :
    (calculateDeliveryValidation pts chart).deliveryData =
      ((pts.zip (pts.drop 1)).filter (fun ab => decide (ab.2.delivery ≠ 0))).map
        (fun ab =>
          ⟨ab.1.height, ab.2.height, ab.2.delivery,
            interpolate ab.2.height chart - interpolate ab.1.height chart,
            ab.2.delivery -
              (interpolate ab.2.height chart - interpolate ab.1.height chart)⟩)
    ∧ ((calculateDeliveryValidation
          [⟨100, 0⟩, ⟨200, 5000⟩, ⟨400, 7300⟩] chart).deliveryData).map
        (fun r => (r.heightBefore, r.heightAfter, r.reportedDelivery))
      = [(100, 200, 5000), (200, 400, 7300)] := by
  constructor
  · rw [calculateDeliveryValidation_deliveryData, deliveryRecords_eq_zipFilter]
    rfl
  · rw [calculateDeliveryValidation_deliveryData]
    norm_num [deliveryRecords, mkDeliveryRecord]

/-- With at least two points the resampler always produces a grid of
exactly `points` entries. -/
lemma generateStrappingChartData_length (c : List ProcessedData) (n : ℕ)
    (h : ¬ c.length < 2) : (generateStrappingChartData c n).length = n := by
  simp only [generateStrappingChartData, if_neg h]
  rw [List.length_map, List.length_range]

/-- C6 counterexample: the 2-point curve `[(5, 10), (5, 20)]` has no
two distinct heights, yet the resampler does not return it unchanged —
it produces a 300-point grid. -/
theorem generateStrappingChartData_same_height_resamples :
    generateStrappingChartData [⟨5, 10, none, none⟩, ⟨5, 20, none, none⟩]
      ≠ [⟨5, 10, none, none⟩, ⟨5, 20, none, none⟩] := by
  intro heq
  have hlen := congrArg List.length heq
  rw [generateStrappingChartData_length _ _ (by decide)] at hlen
  exact absurd hlen (by decide)

/-- C6 (amended): the resampler returns its input unchanged exactly for
inputs with fewer than 2 points (distinctness of heights is not
checked); every input with at least 2 points — even one all of whose
points share a single height — is resampled to an `n`-point grid. -/
theorem generateStrappingChartData_length_behavior :
    (∀ (c : List ProcessedData) (n : ℕ), c.length < 2 → generateStrappingChartData c n = c)
    ∧ ∀ (c : List ProcessedData) (n : ℕ), 2 ≤ c.length →
        (generateStrappingChartData c n).length = n := by
  constructor
  · intro c n h
    simp [generateStrappingChartData, h]
  · intro c n h
    exact generateStrappingChartData_length c n (not_lt.mpr h)

/-- Witness of the amended C6: a singleton is returned unchanged and a
2-point constant-height curve is resampled to 300 points. -/
theorem generateStrappingChartData_length_behavior_witness :
    generateStrappingChartData [⟨5, 10, none, none⟩] 300 = [⟨5, 10, none, none⟩]
    ∧ (generateStrappingChartData
        [⟨5, 10, none, none⟩, ⟨5, 20, none, none⟩] 300).length = 300 :=
  ⟨generateStrappingChartData_length_behavior.1 _ 300 (by decide),
   generateStrappingChartData_length_behavior.2 _ 300 (by decide)⟩

/-- C8: `interpolate` applied to an empty curve returns `0` rather than
failing, and consequently `calculateDeliveryValidation` on an empty
calibration curve with at least 2 readings succeeds with
`chartCalculatedDelivery = 0` and `deviation = reportedDelivery` on
every emitted record. -/
theorem interpolate_empty_curve_delivery (pts : List DeliveryPoint)
    (_hlen : 2 ≤ pts.length) :
    (∀ h : ℚ, interpolate h [] = 0)
    ∧ ∀ r ∈ (calculateDeliveryValidation pts []).deliveryData,
        r.chartCalculatedDelivery = 0 ∧ r.deviation = r.reportedDelivery := by
  have hemp : ∀ h : ℚ, interpolate h [] = 0 := fun _ => rfl
  refine ⟨hemp, ?_⟩
  intro r hr
  rw [calculateDeliveryValidation_deliveryData, deliveryRecords_eq_zipFilter] at hr
  obtain ⟨ab, _, rfl⟩ := List.mem_map.mp hr
  constructor
  · show interpolate ab.2.height [] - interpolate ab.1.height [] = 0
    rw [hemp, hemp]
    ring
  · show ab.2.delivery - (interpolate ab.2.height [] - interpolate ab.1.height [])
        = ab.2.delivery
    rw [hemp, hemp]
    ring

/-- Witness of C8 on the readings `[(1, 0), (2, 5)]` and the record
they produce against the empty curve. -/
theorem interpolate_empty_curve_delivery_witness :
    2 ≤ ([⟨1, 0⟩, ⟨2, 5⟩] : List DeliveryPoint).length
    ∧ ((⟨1, 2, 5, 0, 5⟩ : DeliveryValidationData).chartCalculatedDelivery = 0
      ∧ (⟨1, 2, 5, 0, 5⟩ : DeliveryValidationData).deviation
          = (⟨1, 2, 5, 0, 5⟩ : DeliveryValidationData).reportedDelivery) :=
  ⟨by decide,
   (interpolate_empty_curve_delivery [⟨1, 0⟩, ⟨2, 5⟩] (by decide)).2
     ⟨1, 2, 5, 0, 5⟩ (by with_unfolding_all decide)⟩

/-- C2 counterexample: invoking `calculateDeliveryValidation` directly
with a single already-normalized reading does not fail — it returns a
successful result with an empty record list and zero statistics. -/
theorem calculateDeliveryValidation_one_reading_no_error :
    calculateDeliveryValidation [⟨1, 5⟩] []
      = ⟨[], ⟨0, 0, ⟨0, 0⟩, ⟨0, 0⟩⟩⟩ := by
  with_unfolding_all decide

/-- C2 (amended): the file-based delivery-validation entry point fails
with the insufficient-points error whenever fewer than 2 numeric
readings survive parsing and projection, while direct invocation of
`calculateDeliveryValidation` with fewer than 2 readings does not fail
but returns the empty result with zero statistics. -/
theorem deliveryValidation_insufficient_points (text : String)
    (chart : List ProcessedData) (pf : ParsedFile) (m : HeaderMapping) (dh : String)
    (hpf : parseFileContent text = .ok pf)
    (hm : findHeaders pf.headers = some m)
    (hdh : m.deliveryHeader = some dh)
    (hshort : (projectDeliveryPoints pf (pf.headers.indexOf m.heightHeader)
        (pf.headers.indexOf dh)).length < 2) :
    processDeliveryValidation text chart
      = .error "Delivery validation requires at least two data points (e.g., before and after delivery)."
    ∧ ∀ pts : List DeliveryPoint, pts.length < 2 →
        calculateDeliveryValidation pts chart = ⟨[], ⟨0, 0, ⟨0, 0⟩, ⟨0, 0⟩⟩⟩ := by
  constructor
  · simp only [processDeliveryValidation, hpf, hm, hdh]
    rw [if_pos hshort]
  · intro pts hlen
    cases pts with
    | nil => rfl
    | cons a t =>
      cases t with
      | nil => rfl
      | cons b r =>
        simp only [List.length_cons] at hlen
        omega

/-- Witness of the amended C2 on a delivery file with one data row. -/
theorem deliveryValidation_insufficient_points_witness :
    processDeliveryValidation "Height,Delivery\n1,5" []
      = .error "Delivery validation requires at least two data points (e.g., before and after delivery)." :=
  (deliveryValidation_insufficient_points "Height,Delivery\n1,5" []
      ⟨["Height", "Delivery"], [[Cell.num 1, Cell.num 5]]⟩
      ⟨"Height", none, none, some "Delivery"⟩ "Delivery"
      (by with_unfolding_all decide) (by with_unfolding_all decide)
      (by with_unfolding_all decide) (by with_unfolding_all decide)).1

/-! ### Header-mapper and ingest-pipeline claims -/

/-- A non-null header mapping always carries a volume header or a
delivery header (the guard of `findHeaders`). -/
lemma findHeaders_volume_or_delivery {headers : List String} {m : HeaderMapping}
    (hm : findHeaders headers = some m) :
    m.volumeHeader.isSome ∨ m.deliveryHeader.isSome := by
  unfold findHeaders at hm
  rcases hfind : headers.find? (fun h => regexTest heightRegex h) with _ | hh
  · simp only [hfind] at hm
    exact absurd hm (by simp)
  · simp only [hfind] at hm
    split at hm
    · next hcond =>
        obtain rfl : HeaderMapping.mk hh
            ((headers.find? fun h => regexTest volumeRegex h && !regexTest fieldVolumeRegex h).orElse
              fun _ => headers.find? fun h => regexTest volumeRegex h)
            (headers.find? fun h => regexTest fieldVolumeRegex h && regexTest volumeRegex h)
            (headers.find? fun h => regexTest deliveryRegex h) = m := by
          simpa using hm
        simpa using Bool.or_eq_true_iff.mp hcond
    · exact absurd hm (by simp)

/-- C9: the calibration-ingest pipeline fails with the column-detection
error whenever the resolved header mapping carries no volume header,
even when the mapping itself is non-null because a height header and a
delivery header were found — a delivery header alone never satisfies
the ingest pipeline. -/
theorem processAndAnalyzeData_no_volume_header_fails (text : String)
    (pf : ParsedFile) (m : HeaderMapping)
    (hpf : parseFileContent text = .ok pf)
    (hm : findHeaders pf.headers = some m)
    (hv : m.volumeHeader = none) :
    processAndAnalyzeData text
      = .error "Could not automatically detect \"Height\" and \"Volume\" columns. Please check the file headers or ensure the format is correct."
    ∧ m.deliveryHeader.isSome := by
  refine ⟨?_, ?_⟩
  · simp only [processAndAnalyzeData, hpf, hm, hv]
  · rcases findHeaders_volume_or_delivery hm with hvol | hdel
    · rw [hv] at hvol
      exact absurd hvol (by simp)
    · exact hdel

/-- Witness of C9 on a file whose headers resolve to a height column
and a delivery column but no volume column. -/
theorem processAndAnalyzeData_no_volume_header_fails_witness :
    processAndAnalyzeData "Dip,Delivery\n1,2"
      = .error "Could not automatically detect \"Height\" and \"Volume\" columns. Please check the file headers or ensure the format is correct." :=
  (processAndAnalyzeData_no_volume_header_fails "Dip,Delivery\n1,2"
      ⟨["Dip", "Delivery"], [[Cell.num 1, Cell.num 2]]⟩
      ⟨"Dip", none, none, some "Delivery"⟩
      (by with_unfolding_all decide) (by with_unfolding_all decide) rfl).1

/-! ### Statistics-aggregator lemmas -/

lemma validDeviations_eq (data : List ProcessedData) :
    (data.map ProcessedData.deviation).reduceOption
      = (validDeviationPairs data).map DeviationPoint.value := by
  induction data with
  | nil => rfl
  | cons d rest ih =>
      cases hd : d.deviation <;>
        simp [validDeviationPairs, List.reduceOption, List.filterMap_cons, hd,
          ih, validDeviationPairs] <;>
        simpa [validDeviationPairs, List.reduceOption] using ih

lemma foldl_add_eq_sum (l : List ℚ) : ∀ a : ℚ, l.foldl (fun sum dev => sum + dev) a = a + l.sum := by
  induction l with
  | nil => intro a; simp
  | cons x xs ih =>
      intro a
      rw [List.foldl_cons, ih, List.sum_cons]
      ring

/-- Invariant of the strict-maximum fold from a `some` accumulator: the
fold either keeps the accumulator (everything is at most its value) or
returns the first element strictly exceeding everything before it and
at least everything after it. -/
lemma foldExtMax_go :
    ∀ (l : List DeviationPoint) (acc : DeviationPoint),
      (l.foldl extMaxStep (some acc) = some acc ∧ ∀ p ∈ l, p.value ≤ acc.value)
      ∨ (∃ pre mx post, l = pre ++ mx :: post
          ∧ l.foldl extMaxStep (some acc) = some mx
          ∧ acc.value < mx.value
          ∧ (∀ p ∈ pre, p.value < mx.value) ∧ ∀ p ∈ post, p.value ≤ mx.value)
  | [], _ => Or.inl ⟨rfl, by simp⟩
  | w :: rest, acc => by
    by_cases hw : w.value > acc.value
    · have hstep : extMaxStep (some acc) w = some w := by simp [extMaxStep, hw]
      rcases foldExtMax_go rest w with ⟨hr, hall⟩ | ⟨pre, mx, post, hl, hr, hacc, hpre, hpost⟩
      · exact Or.inr ⟨[], w, rest, by simp, by simpa [List.foldl_cons, hstep] using hr,
          hw, by simp, hall⟩
      · refine Or.inr ⟨w :: pre, mx, post, by simp [hl],
          by simpa [List.foldl_cons, hstep] using hr, lt_trans hw hacc, ?_, hpost⟩
        intro p hp
        rcases List.mem_cons.mp hp with rfl | hp'
        · exact hacc
        · exact hpre p hp'
    · push_neg at hw
      have hstep : extMaxStep (some acc) w = some acc := by
        simp [extMaxStep, not_lt.mpr hw]
      rcases foldExtMax_go rest acc with ⟨hr, hall⟩ | ⟨pre, mx, post, hl, hr, hacc, hpre, hpost⟩
      · refine Or.inl ⟨by simpa [List.foldl_cons, hstep] using hr, ?_⟩
        intro p hp
        rcases List.mem_cons.mp hp with rfl | hp'
        · exact hw
        · exact hall p hp'
      · refine Or.inr ⟨w :: pre, mx, post, by simp [hl],
          by simpa [List.foldl_cons, hstep] using hr, hacc, ?_, hpost⟩
        intro p hp
        rcases List.mem_cons.mp hp with rfl | hp'
        · exact lt_of_le_of_lt hw hacc
        · exact hpre p hp'

/-- The dual invariant of the strict-minimum fold. -/
lemma foldExtMin_go :
    ∀ (l : List DeviationPoint) (acc : DeviationPoint),
      (l.foldl extMinStep (some acc) = some acc ∧ ∀ p ∈ l, acc.value ≤ p.value)
      ∨ (∃ pre mn post, l = pre ++ mn :: post
          ∧ l.foldl extMinStep (some acc) = some mn
          ∧ mn.value < acc.value
          ∧ (∀ p ∈ pre, mn.value < p.value) ∧ ∀ p ∈ post, mn.value ≤ p.value)
  | [], _ => Or.inl ⟨rfl, by simp⟩
  | w :: rest, acc => by
    by_cases hw : w.value < acc.value
    · have hstep : extMinStep (some acc) w = some w := by simp [extMinStep, hw]
      rcases foldExtMin_go rest w with ⟨hr, hall⟩ | ⟨pre, mn, post, hl, hr, hacc, hpre, hpost⟩
      · exact Or.inr ⟨[], w, rest, by simp, by simpa [List.foldl_cons, hstep] using hr,
          hw, by simp, hall⟩
      · refine Or.inr ⟨w :: pre, mn, post, by simp [hl],
          by simpa [List.foldl_cons, hstep] using hr, lt_trans hacc hw, ?_, hpost⟩
        intro p hp
        rcases List.mem_cons.mp hp with rfl | hp'
        · exact hacc
        · exact hpre p hp'
    · push_neg at hw
      have hstep : extMinStep (some acc) w = some acc := by
        simp [extMinStep, not_lt.mpr hw]
      rcases foldExtMin_go rest acc with ⟨hr, hall⟩ | ⟨pre, mn, post, hl, hr, hacc, hpre, hpost⟩
      · refine Or.inl ⟨by simpa [List.foldl_cons, hstep] using hr, ?_⟩
        intro p hp
        rcases List.mem_cons.mp hp with rfl | hp'
        · exact hw
        · exact hall p hp'
      · refine Or.inr ⟨w :: pre, mn, post, by simp [hl],
          by simpa [List.foldl_cons, hstep] using hr, hacc, ?_, hpost⟩
        intro p hp
        rcases List.mem_cons.mp hp with rfl | hp'
        · exact lt_of_lt_of_le hacc hw
        · exact hpre p hp'

/-- The maximum scan of a non-empty list returns its earliest strict
maximum. -/
lemma foldExtMax_spec {l : List DeviationPoint} (hne : l ≠ []) :
    ∃ pre mx post, l = pre ++ mx :: post
      ∧ foldExtMax l = some mx
      ∧ (∀ p ∈ pre, p.value < mx.value) ∧ ∀ p ∈ post, p.value ≤ mx.value := by
  obtain ⟨v, vs, rfl⟩ := List.exists_cons_of_ne_nil hne
  have hstart : foldExtMax (v :: vs) = vs.foldl extMaxStep (some v) := by
    simp [foldExtMax, List.foldl_cons, extMaxStep]
  rcases foldExtMax_go vs v with ⟨hr, hall⟩ | ⟨pre, mx, post, hl, hr, hacc, hpre, hpost⟩
  · exact ⟨[], v, vs, by simp, by rw [hstart]; exact hr, by simp, hall⟩
  · refine ⟨v :: pre, mx, post, by simp [hl], by rw [hstart]; exact hr, ?_, hpost⟩
    intro p hp
    rcases List.mem_cons.mp hp with rfl | hp'
    · exact hacc
    · exact hpre p hp'

/-- The minimum scan of a non-empty list returns its earliest strict
minimum. -/
lemma foldExtMin_spec {l : List DeviationPoint} (hne : l ≠ []) :
    ∃ pre mn post, l = pre ++ mn :: post
      ∧ foldExtMin l = some mn
      ∧ (∀ p ∈ pre, mn.value < p.value) ∧ ∀ p ∈ post, mn.value ≤ p.value := by
  obtain ⟨v, vs, rfl⟩ := List.exists_cons_of_ne_nil hne
  have hstart : foldExtMin (v :: vs) = vs.foldl extMinStep (some v) := by
    simp [foldExtMin, List.foldl_cons, extMinStep]
  rcases foldExtMin_go vs v with ⟨hr, hall⟩ | ⟨pre, mn, post, hl, hr, hacc, hpre, hpost⟩
  · exact ⟨[], v, vs, by simp, by rw [hstart]; exact hr, by simp, hall⟩
  · refine ⟨v :: pre, mn, post, by simp [hl], by rw [hstart]; exact hr, ?_, hpost⟩
    intro p hp
    rcases List.mem_cons.mp hp with rfl | hp'
    · exact hacc
    · exact hpre p hp'

/-- C10: the statistics aggregator computes its measurement count,
average deviation and strict extrema over exactly the records whose
deviation is present (and, over `ℚ`, a number); records without a
deviation contribute to none of the statistics, and when strict
extremes tie, the earliest qualifying record in input order supplies
the extremum's height and value. -/
theorem calculateStats_valid_deviations_only (data : List ProcessedData) :
    (calculateStats data).totalMeasurements = (validDeviationPairs data).length
    ∧ (validDeviationPairs data = [] → calculateStats data = ⟨0, 0, ⟨0, 0⟩, ⟨0, 0⟩⟩)
    ∧ (validDeviationPairs data ≠ [] →
        (calculateStats data).averageDeviation
            = ((validDeviationPairs data).map DeviationPoint.value).sum
                / ((validDeviationPairs data).length : ℚ)
        ∧ (∃ pre mx post, validDeviationPairs data = pre ++ mx :: post
            ∧ (calculateStats data).maxDeviation = mx
            ∧ (∀ p ∈ pre, p.value < mx.value) ∧ (∀ p ∈ post, p.value ≤ mx.value))
        ∧ (∃ pre mn post, validDeviationPairs data = pre ++ mn :: post
            ∧ (calculateStats data).minDeviation = mn
            ∧ (∀ p ∈ pre, mn.value < p.value) ∧ ∀ p ∈ post, mn.value ≤ p.value)) := by
  have hvd := validDeviations_eq data
  by_cases hne : validDeviationPairs data = []
  · have hlen : (data.map ProcessedData.deviation).reduceOption.length = 0 := by
      rw [hvd, hne]
      simp
    have hcs : calculateStats data = ⟨0, 0, ⟨0, 0⟩, ⟨0, 0⟩⟩ := by
      simp only [calculateStats, hlen]
      simp
    refine ⟨?_, fun _ => hcs, fun h => absurd hne h⟩
    rw [hcs, hne]
    rfl
  · have hlen : (data.map ProcessedData.deviation).reduceOption.length
        = (validDeviationPairs data).length := by
      rw [hvd, List.length_map]
    have hlen0 : ¬ (data.map ProcessedData.deviation).reduceOption.length = 0 := by
      rw [hlen]
      intro h
      exact hne (List.length_eq_zero.mp h)
    have hcs : calculateStats data
        = ⟨(data.map ProcessedData.deviation).reduceOption.length,
           ((data.map ProcessedData.deviation).reduceOption.foldl
               (fun sum dev => sum + dev) 0)
             / ((data.map ProcessedData.deviation).reduceOption.length : ℚ),
           (foldExtMax (validDeviationPairs data)).getD ⟨0, 0⟩,
           (foldExtMin (validDeviationPairs data)).getD ⟨0, 0⟩⟩ := by
      simp only [calculateStats, if_neg hlen0]
    obtain ⟨pre, mx, post, hdecomp, hfold, hpre, hpost⟩ := foldExtMax_spec hne
    obtain ⟨pre2, mn, post2, hdecomp2, hfold2, hpre2, hpost2⟩ := foldExtMin_spec hne
    refine ⟨by rw [hcs]; exact hlen, fun h => absurd h hne, fun _ =>
      ⟨?_, ⟨pre, mx, post, hdecomp, ?_, hpre, hpost⟩,
        ⟨pre2, mn, post2, hdecomp2, ?_, hpre2, hpost2⟩⟩⟩
    · rw [hcs]
      show ((data.map ProcessedData.deviation).reduceOption.foldl
          (fun sum dev => sum + dev) 0)
            / ((data.map ProcessedData.deviation).reduceOption.length : ℚ) = _
      rw [hvd, foldl_add_eq_sum, List.length_map]
      ring_nf
    · rw [hcs]
      show (foldExtMax (validDeviationPairs data)).getD ⟨0, 0⟩ = mx
      rw [hfold]
      rfl
    · rw [hcs]
      show (foldExtMin (validDeviationPairs data)).getD ⟨0, 0⟩ = mn
      rw [hfold2]
      rfl

/-! ### Dialect-parser claims -/

lemma splitOnP_ne_nil (p : Char → Bool) : ∀ cs : List Char, splitOnP p cs ≠ []
  | [] => by simp [splitOnP]
  | c :: rest => by
    simp only [splitOnP]
    split
    · exact List.cons_ne_nil _ _
    · split
      · exact List.cons_ne_nil _ _
      · exact List.cons_ne_nil _ _

lemma splitLines_ne_nil (cs : List Char) : splitLines cs ≠ [] := by
  simp only [splitLines, splitOnChar, ne_eq, List.map_eq_nil_iff]
  exact splitOnP_ne_nil _ cs

/-- C7: for non-tagged input text, the parser treats the first line as
a header row iff at least one of its delimiter-split fields fails to
parse as a number — consuming it as the header and keeping all fields
of the remaining lines — and otherwise synthesizes the header
`["Height","Volume"]`, consumes no line, and keeps only the first two
delimiter-split fields of every line; in particular
`"Height,Volume\n1,100\n2,200"` parses as a headered CSV with 2 data
rows and `"1;100\n2;200"` parses headerless with the synthesized
headers. -/
theorem parseFileContent_header_detection (text : String)
    (lines : List (List Char)) (delimiter : Char) (fields : List (List Char))
    (hne : trimChars text.data ≠ [])
    (hlines : lines = splitLines (trimChars text.data))
    (hnf : jsToUpper (trimChars (lines.headD [])) ≠ fusionSentinel)
    (hdelim : delimiter = (if ';' ∈ lines.headD [] then ';' else ','))
    (hfields : fields = splitOnChar delimiter (lines.headD [])) :
    ((fields.any fun f => (jsParseFloat (trimChars f)).isNone) = true →
        (2 ≤ lines.length →
          parseFileContent text
            = .ok ⟨fields.map (fun h => String.mk (trimChars h)),
                (lines.drop 1).map (fun line => (splitOnChar delimiter line).map toCell)⟩)
        ∧ (lines.length < 2 →
          parseFileContent text = .error "CSV file must have at least one data row."))
    ∧ ((fields.any fun f => (jsParseFloat (trimChars f)).isNone) = false →
        parseFileContent text
          = .ok ⟨["Height", "Volume"],
              lines.map (fun line => ((splitOnChar delimiter line).take 2).map toCell)⟩)
    ∧ parseFileContent "Height,Volume\n1,100\n2,200"
        = .ok ⟨["Height", "Volume"],
            [[Cell.num 1, Cell.num 100], [Cell.num 2, Cell.num 200]]⟩
    ∧ parseFileContent "1;100\n2;200"
        = .ok ⟨["Height", "Volume"],
            [[Cell.num 1, Cell.num 100], [Cell.num 2, Cell.num 200]]⟩ := by
  subst hlines hdelim hfields
  refine ⟨?_, ?_, ?_, ?_⟩
  · intro hheader
    constructor
    · intro hlen
      simp only [parseFileContent, if_neg hne, if_neg hnf, hheader,
        if_neg (not_lt.mpr hlen)]
      simp
    · intro hlen
      simp only [parseFileContent, if_neg hne, if_neg hnf, hheader, if_pos hlen]
      simp
  · intro hnoheader
    have hlen0 : ¬ ((splitLines (trimChars text.data)).map
        (fun line => ((splitOnChar
            (if ';' ∈ (splitLines (trimChars text.data)).headD [] then ';' else ',')
            line).take 2).map toCell)).length = 0 := by
      rw [List.length_map]
      intro h
      exact splitLines_ne_nil _ (List.length_eq_zero.mp h)
    simp only [parseFileContent, if_neg hne, if_neg hnf, hnoheader, if_neg hlen0]
    simp
  · with_unfolding_all decide
  · with_unfolding_all decide

/-- Witness of C7 applying the general statement to the headered
example. -/
theorem parseFileContent_header_detection_witness :
    parseFileContent "Height,Volume\n1,100\n2,200"
      = .ok ⟨["Height", "Volume"],
          [[Cell.num 1, Cell.num 100], [Cell.num 2, Cell.num 200]]⟩ :=
  (parseFileContent_header_detection "Height,Volume\n1,100\n2,200"
      (splitLines (trimChars "Height,Volume\n1,100\n2,200".data))
      (if ';' ∈ (splitLines (trimChars "Height,Volume\n1,100\n2,200".data)).headD []
        then ';' else ',')
      (splitOnChar
        (if ';' ∈ (splitLines (trimChars "Height,Volume\n1,100\n2,200".data)).headD []
          then ';' else ',')
        ((splitLines (trimChars "Height,Volume\n1,100\n2,200".data)).headD []))
      (by with_unfolding_all decide) rfl (by with_unfolding_all decide) rfl rfl).2.2.1

/-- Witness of C10 on three records, the middle one without a
deviation. -/
theorem calculateStats_valid_deviations_only_witness :
    validDeviationPairs [⟨1, 0, none, some 5⟩, ⟨2, 0, none, none⟩, ⟨3, 0, none, some 5⟩] ≠ []
    ∧ (calculateStats [⟨1, 0, none, some 5⟩, ⟨2, 0, none, none⟩, ⟨3, 0, none, some 5⟩]).averageDeviation
        = ((validDeviationPairs
              [⟨1, 0, none, some 5⟩, ⟨2, 0, none, none⟩, ⟨3, 0, none, some 5⟩]).map
            DeviationPoint.value).sum
          / ((validDeviationPairs
              [⟨1, 0, none, some 5⟩, ⟨2, 0, none, none⟩, ⟨3, 0, none, some 5⟩]).length : ℚ) :=
  ⟨by with_unfolding_all decide,
   ((calculateStats_valid_deviations_only
        [⟨1, 0, none, some 5⟩, ⟨2, 0, none, none⟩, ⟨3, 0, none, some 5⟩]).2.2
      (by with_unfolding_all decide)).1⟩

end DataProcessor
